import Mathlib

/-!
# Verification of the scholarx-search-api query constraint compiler

Shallow embedding of the core of the repository:

* `helpers/filters.py` — `build_qdrant_filter`, the translation of parsed
  query constraints into a Qdrant boolean filter tree;
* `helpers/countries.py` — `normalize_country` / `normalize_countries`,
  the country-name canonicalizer with its two-layer lookup table;
* `helpers/query_parser.py` — `QueryConstraints`, `ParsedQuery`,
  `_call_llm` and `understand_query`, the LLM-backed query-understanding
  engine with two-provider failover.

Numeric payload values (exam scores, GPA) are floats in the source; they
are modelled as rationals, on which every comparison performed by the
code is exact.
-/

namespace ScholarX

/-! ## Qdrant filter model (`qdrant_client.models` as used by `filters.py`)

Conditions are the subset of the Qdrant condition language constructed by
`build_qdrant_filter`: field equality matches (`FieldCondition` +
`MatchValue`), numeric range conditions (`FieldCondition` + `Range`),
null checks (`IsNullCondition`), nested sub-document conditions
(`NestedCondition`), and whole `Filter` objects used as conditions
(the `should` groups appended to the outer `must`).  A filter-as-condition
and a nested condition carry the inner filter's `must`, `must_not` and
`should` lists inline. -/

/-- A `MatchValue`: the code matches on string and boolean payload values. -/
inductive MatchVal where
  | s (v : String)
  | b (v : Bool)
deriving DecidableEq, Repr

/-- A Qdrant `Range`, with the four optional bounds. -/
structure RangeQ where
  gt : Option ℚ := none
  gte : Option ℚ := none
  lt : Option ℚ := none
  lte : Option ℚ := none
deriving DecidableEq, Repr

/-- The condition language emitted by `build_qdrant_filter`. -/
inductive Condition where
  | fieldMatch (key : String) (v : MatchVal)
  | fieldRange (key : String) (r : RangeQ)
  | isNull (key : String)
  | nestedCond (key : String) (must mustNot should : List Condition)
  | filterCond (must mustNot should : List Condition)
deriving Repr

/-- The top-level `Filter(must=…, must_not=…)` object returned by
`build_qdrant_filter`; each list is `None` (absent) or non-empty,
mirroring `must_conditions if must_conditions else None`. -/
structure BuiltFilter where
  must : Option (List Condition) := none
  mustNot : Option (List Condition) := none
deriving Repr

/-! ## Constraint schema (`QueryConstraints` in `query_parser.py`)

Field order matters: `build_qdrant_filter` iterates
`constraints.model_dump().items()`, which yields the fields in
declaration order. -/

/-- `QueryConstraints` from `helpers/query_parser.py`. -/
structure QueryConstraints where
  subtype : List String := []
  category : List String := []
  country : List String := []
  fund_type : List String := []
  target_segment : List String := []
  documents_not_required : List String := []
  language_score_requirements : List (String × ℚ) := []
  eligible_nationalities : List String := []
  is_remote : Option Bool := none
  min_age : Option Int := none
  max_age : Option Int := none
  gpa : Option ℚ := none
  has_document_requirements : Option Bool := none
  has_language_requirements : Option Bool := none
  has_fee : Option Bool := none
deriving DecidableEq, Repr

/-- `ParsedQuery` from `helpers/query_parser.py`. -/
structure ParsedQuery where
  semantic_query : String
  constraints : QueryConstraints
deriving DecidableEq, Repr

/-- Python's `str.lower()` (ASCII case mapping, the alphabet all the
inputs of this program use), implemented on the character list so that
it evaluates by kernel reduction. -/
def lowerStr (s : String) : String :=
  String.mk (s.data.map Char.toLower)

/-! ## The filter compiler (`build_qdrant_filter` in `helpers/filters.py`) -/

/-- Generic list-field branch of the loop (lines 82–93): an empty list is
skipped by the emptiness guard, a singleton becomes one direct equality
condition, several values become one `should` group of equalities. -/
def listFieldConds (field : String) (value : List String) : List Condition :=
  match value with
  | [] => []
  | [v] => [Condition.fieldMatch field (MatchVal.s v)]
  | vs => [Condition.filterCond [] []
      (vs.map fun v => Condition.fieldMatch field (MatchVal.s v))]

/-- Boolean-field branch (lines 95–99): an absent optional is skipped,
a present boolean becomes one direct equality condition. -/
def boolFieldConds (field : String) (value : Option Bool) : List Condition :=
  match value with
  | none => []
  | some b => [Condition.fieldMatch field (MatchVal.b b)]

/-- `eligible_nationalities` branch (lines 70–80): a `should` group of the
sentinel `"all"` equality plus one equality per listed nationality. -/
def nationalityConds (value : List String) : List Condition :=
  match value with
  | [] => []
  | vs => [Condition.filterCond [] []
      (Condition.fieldMatch "eligible_nationalities" (MatchVal.s "all") ::
        vs.map fun nat =>
          Condition.fieldMatch "eligible_nationalities" (MatchVal.s nat))]

/-- `min_age` branch (lines 101–110): `should` group of
{`min_age` ≤ value} OR {`min_age` is null}. -/
def minAgeConds (value : Option Int) : List Condition :=
  match value with
  | none => []
  | some a => [Condition.filterCond [] []
      [Condition.fieldRange "min_age" { lte := some (a : ℚ) },
       Condition.isNull "min_age"]]

/-- `max_age` branch (lines 112–121): `should` group of
{`max_age` ≥ value} OR {`max_age` is null}. -/
def maxAgeConds (value : Option Int) : List Condition :=
  match value with
  | none => []
  | some a => [Condition.filterCond [] []
      [Condition.fieldRange "max_age" { gte := some (a : ℚ) },
       Condition.isNull "max_age"]]

/-- `gpa` branch (lines 123–132): `should` group of
{0 ≤ `gpa` ≤ value} OR {`gpa` is null}. -/
def gpaConds (value : Option ℚ) : List Condition :=
  match value with
  | none => []
  | some g => [Condition.filterCond [] []
      [Condition.fieldRange "gpa" { gte := some 0, lte := some g },
       Condition.isNull "gpa"]]

/-- `documents_not_required` branch (lines 34–42): one `must_not` equality
against the `documents_required` field per listed document. -/
def documentsNotRequiredConds (value : List String) : List Condition :=
  value.map fun doc => Condition.fieldMatch "documents_required" (MatchVal.s doc)

/-- `language_score_requirements` branch (lines 44–68): for each
`(exam, score)` pair, a `must_not` nested condition over `exam_scores`
requiring name = lowercased exam AND score > user's score. -/
def languageScoreConds (value : List (String × ℚ)) : List Condition :=
  value.map fun p =>
    Condition.nestedCond "exam_scores"
      [Condition.fieldMatch "name" (MatchVal.s (lowerStr p.1)),
       Condition.fieldRange "score" { gt := some p.2 }]
      [] []

/-- The `must_conditions` accumulator of `build_qdrant_filter` after the
loop over `constraints.model_dump().items()`, which visits the fields in
declaration order; every field except the two `must_not` producers
appends here. -/
def mustConds (c : QueryConstraints) : List Condition :=
  listFieldConds "subtype" c.subtype ++
  listFieldConds "category" c.category ++
  listFieldConds "country" c.country ++
  listFieldConds "fund_type" c.fund_type ++
  listFieldConds "target_segment" c.target_segment ++
  nationalityConds c.eligible_nationalities ++
  boolFieldConds "is_remote" c.is_remote ++
  minAgeConds c.min_age ++
  maxAgeConds c.max_age ++
  gpaConds c.gpa ++
  boolFieldConds "has_document_requirements" c.has_document_requirements ++
  boolFieldConds "has_language_requirements" c.has_language_requirements ++
  boolFieldConds "has_fee" c.has_fee

/-- The `must_not_conditions` accumulator of `build_qdrant_filter`:
`documents_not_required` (field 6) appends before
`language_score_requirements` (field 7). -/
def mustNotConds (c : QueryConstraints) : List Condition :=
  documentsNotRequiredConds c.documents_not_required ++
  languageScoreConds c.language_score_requirements

/-- `build_qdrant_filter` (`helpers/filters.py`, lines 22–141).

When both accumulators end empty the function returns `None`; otherwise
each non-empty accumulator becomes the corresponding member of the
returned `Filter`, an empty one becomes `None`. -/
def build_qdrant_filter (c : QueryConstraints) : Option BuiltFilter :=
  if (mustConds c).isEmpty ∧ (mustNotConds c).isEmpty then none
  else some
    { must := if (mustConds c).isEmpty then none else some (mustConds c)
      mustNot := if (mustNotConds c).isEmpty then none else some (mustNotConds c) }

/-! ## Filter-tree evaluation semantics

Modelled from the spec: the vector/document search backend that evaluates
the compiled filter tree against candidate entities is an external
collaborator, not code of this repository.  The spec defines the
semantics: a filter tree is "a boolean expression of must/must_not/should
condition groups evaluated against a candidate entity" with `must` a
conjunction, `must_not` negated conjunction members, `should` a
disjunction; a null-safe range "also admits candidates where the compared
field is absent"; an equality condition on a set-valued field matches
when the candidate's set contains the value. -/

/-- One exam-score record of a candidate (a sub-document of the
`exam_scores` collection, with `name` and `score` fields). -/
structure ExamScore where
  name : String
  score : ℚ
deriving DecidableEq, Repr

/-- A candidate entity's payload: keyword (string-set) fields, numeric
fields, boolean fields, and nested sub-document collections.  A key
missing from a list means the field is absent. -/
structure Payload where
  kw : List (String × List String) := []
  num : List (String × ℚ) := []
  boolv : List (String × Bool) := []
  nested : List (String × List ExamScore) := []
deriving DecidableEq, Repr

/-- An exam-score sub-document viewed as the payload the nested filter is
evaluated against. -/
def examScorePayload (d : ExamScore) : Payload :=
  { kw := [("name", [d.name])], num := [("score", d.score)] }

/-- A numeric range condition holds when the field value satisfies every
stated bound. -/
def checkRange (r : RangeQ) (x : ℚ) : Bool :=
  (match r.gt with | some b => b < x | none => true) &&
  (match r.gte with | some b => b ≤ x | none => true) &&
  (match r.lt with | some b => x < b | none => true) &&
  (match r.lte with | some b => x ≤ b | none => true)

mutual

/-- Modelled from the spec: evaluation of one condition against a
candidate payload.  Equality matches test membership in the keyword set
(resp. equality of the boolean field); a range condition on an absent
field fails; an is-null condition admits the absent field (null-safe
ranges per the spec); a nested condition holds when some sub-document of
the named collection satisfies the inner filter; a filter used as a
condition holds when every `must` member holds, no `must_not` member
holds, and — when the `should` group is non-empty — at least one
`should` member holds. -/
def evalCond : Condition → Payload → Bool
  | Condition.fieldMatch k (MatchVal.s v), p => ((p.kw.lookup k).getD []).contains v
  | Condition.fieldMatch k (MatchVal.b v), p => p.boolv.lookup k == some v
  | Condition.fieldRange k r, p =>
      match p.num.lookup k with
      | some x => checkRange r x
      | none => false
  | Condition.isNull k, p => (p.num.lookup k).isNone
  | Condition.filterCond m mn s, p =>
      evalAll m p && evalNone mn p && (s.isEmpty || evalAny s p)
  | Condition.nestedCond k m mn s, p =>
      ((p.nested.lookup k).getD []).any fun d =>
        evalAll m (examScorePayload d) && evalNone mn (examScorePayload d) &&
          (s.isEmpty || evalAny s (examScorePayload d))

/-- Every condition of the list holds. -/
def evalAll : List Condition → Payload → Bool
  | [], _ => true
  | c :: cs, p => evalCond c p && evalAll cs p

/-- No condition of the list holds. -/
def evalNone : List Condition → Payload → Bool
  | [], _ => true
  | c :: cs, p => !evalCond c p && evalNone cs p

/-- Some condition of the list holds. -/
def evalAny : List Condition → Payload → Bool
  | [], _ => false
  | c :: cs, p => evalCond c p || evalAny cs p

end

/-- Evaluation of the compiled top-level filter (`must` + `must_not`,
absent lists hold vacuously). -/
def matchesFilter (f : BuiltFilter) (p : Payload) : Bool :=
  evalAll (f.must.getD []) p && evalNone (f.mustNot.getD []) p

/-- A compiled filter admits a candidate; an absent filter admits
everything (the spec's "no filtering" case). -/
def admits (F : Option BuiltFilter) (p : Payload) : Bool :=
  match F with
  | none => true
  | some f => matchesFilter f p

/-! ## Entity normalizer (`helpers/countries.py`)

The process-wide `_LOOKUP` dict maps lowercase alias → canonical short
name.  It is built from the hand-curated `_CUSTOM_ALIASES` table first
(plain dict assignment), then from the pycountry registry with a
"skip if already present" guard.  `normalize_country` reads the table
and, on a successful fuzzy resolution, writes a memoized entry back, so
it is modelled as a state-passing function over the table; the fuzzy
search itself (pycountry's `search_fuzzy`, an external library) is a
function parameter returning the top hit's name, `none` standing for
`LookupError`/no result. -/

/-- The lookup table: alias → canonical, first binding wins. -/
abbrev LookupTable := List (String × String)

/-- Python dict assignment `d[k] = v`: overwrite the existing binding in
place, else append. -/
def dictInsert (t : LookupTable) (k v : String) : LookupTable :=
  if (t.lookup k).isSome then
    t.map fun p => if p.1 = k then (k, v) else p
  else t ++ [(k, v)]

/-- The guarded insertion of the registry phase:
`if key not in _LOOKUP: _LOOKUP[key] = value`. -/
def insertIfAbsent (t : LookupTable) (k v : String) : LookupTable :=
  if (t.lookup k).isSome then t else t ++ [(k, v)]

/-- `_CUSTOM_ALIASES` from `helpers/countries.py`, verbatim:
canonical short form → list of lowercase aliases. -/
def customAliases : List (String × List String) :=
  [("USA",
    ["usa", "u.s.", "u.s", "u.s.a", "u.s.a.", "us", "america",
     "united states", "united states of america",
     "the united states", "the united states of america",
     "united states of amereca"]),
   ("UK",
    ["uk", "u.k.", "u.k", "united kingdom",
     "great britain", "britain", "england",
     "the united kingdom"]),
   ("UAE",
    ["uae", "u.a.e.", "u.a.e", "united arab emirates",
     "the uae", "the united arab emirates", "emirates"]),
   ("South Korea",
    ["south korea", "korea", "republic of korea",
     "rok", "s. korea", "korea, republic of"]),
   ("North Korea",
    ["north korea", "dprk",
     "democratic people's republic of korea",
     "korea, democratic people's republic of"]),
   ("Russia",
    ["russia", "russian federation", "the russian federation"]),
   ("Czech Republic",
    ["czech republic", "czechia", "the czech republic"]),
   ("Taiwan",
    ["taiwan", "chinese taipei", "republic of china",
     "taiwan, province of china"]),
   ("Saudi Arabia",
    ["saudi arabia", "ksa", "k.s.a.", "k.s.a",
     "kingdom of saudi arabia", "the kingdom of saudi arabia",
     "saudi"]),
   ("Turkey",
    ["turkey", "türkiye", "turkiye", "turkia"]),
   ("Netherlands",
    ["netherlands", "the netherlands", "holland"]),
   ("Palestine",
    ["palestine", "palestinian territories",
     "state of palestine", "palestine, state of"]),
   ("New Zealand",
    ["new zealand", "nz"]),
   ("Bosnia",
    ["bosnia", "bosnia and herzegovina"]),
   ("North Macedonia",
    ["north macedonia", "macedonia"]),
   ("Myanmar",
    ["myanmar", "burma"]),
   ("Hong Kong",
    ["hong kong"]),
   ("Macau",
    ["macau", "macao"])]

/-- Phase 1 of the `_LOOKUP` build (lines 89–93): for each custom entry,
assign `canonical.lower() → canonical`, then each `alias.lower() →
canonical`. -/
def customLookup : LookupTable :=
  customAliases.foldl
    (fun t p =>
      p.2.foldl (fun t a => dictInsert t (lowerStr a) p.1)
        (dictInsert t (lowerStr p.1) p.1))
    []

/-- One country record of the bulk registry: canonical `name`, optional
`official_name` and `common_name`, and the two ISO codes. -/
structure RegistryEntry where
  name : String
  official_name : Option String := none
  common_name : Option String := none
  alpha_2 : String
  alpha_3 : String
deriving DecidableEq, Repr

/-- Phase 2 of the `_LOOKUP` build (lines 96–109): insert
`name.lower() → name` unless present, then `official_name` and
`common_name` likewise, then the two alpha codes. -/
def insertRegistryEntry (t : LookupTable) (e : RegistryEntry) : LookupTable :=
  let t1 := insertIfAbsent t (lowerStr e.name) e.name
  let t2 := match e.official_name with
    | some o => insertIfAbsent t1 (lowerStr o) e.name
    | none => t1
  let t3 := match e.common_name with
    | some o => insertIfAbsent t2 (lowerStr o) e.name
    | none => t2
  let t4 := insertIfAbsent t3 (lowerStr e.alpha_2) e.name
  insertIfAbsent t4 (lowerStr e.alpha_3) e.name

/-- Modelled from the spec: the bulk country registry is the external
pycountry data package, "a static reference table of canonical country
names with official/common-name variants and ISO alpha-2/alpha-3 codes";
it is not part of this repository.  This is the fragment of its (ISO
3166) entries relevant to the countries named by the spec and the custom
alias table. -/
def pycountryRegistry : List RegistryEntry :=
  [{ name := "United States",
     official_name := some "United States of America",
     alpha_2 := "US", alpha_3 := "USA" },
   { name := "United Kingdom",
     official_name := some "United Kingdom of Great Britain and Northern Ireland",
     alpha_2 := "GB", alpha_3 := "GBR" },
   { name := "Russian Federation",
     official_name := some "Russian Federation",
     alpha_2 := "RU", alpha_3 := "RUS" },
   { name := "Korea, Republic of",
     official_name := some "Korea, Republic of",
     alpha_2 := "KR", alpha_3 := "KOR" },
   { name := "Czechia",
     official_name := some "Czech Republic",
     alpha_2 := "CZ", alpha_3 := "CZE" },
   { name := "Saudi Arabia",
     official_name := some "Kingdom of Saudi Arabia",
     alpha_2 := "SA", alpha_3 := "SAU" },
   { name := "Egypt",
     official_name := some "Arab Republic of Egypt",
     alpha_2 := "EG", alpha_3 := "EGY" },
   { name := "Germany",
     official_name := some "Federal Republic of Germany",
     alpha_2 := "DE", alpha_3 := "DEU" },
   { name := "Jordan",
     official_name := some "Hashemite Kingdom of Jordan",
     alpha_2 := "JO", alpha_3 := "JOR" }]

/-- The `_LOOKUP` table as built at import time: custom aliases first,
then the registry entries, which never overwrite. -/
def shippedLookup : LookupTable :=
  pycountryRegistry.foldl insertRegistryEntry customLookup

/-- The maximal whitespace-free words of a character list, in order
(`cur` holds the characters of the current word, reversed). -/
def wordsAux : List Char → List Char → List (List Char)
  | [], cur => if cur.isEmpty then [] else [cur.reverse]
  | c :: cs, cur =>
    if c.isWhitespace then
      if cur.isEmpty then wordsAux cs [] else cur.reverse :: wordsAux cs []
    else wordsAux cs (c :: cur)

/-- Join words with single spaces. -/
def joinSpace : List (List Char) → List Char
  | [] => []
  | [w] => w
  | w :: ws => w ++ ' ' :: joinSpace ws

/-- `_WHITESPACE.sub(" ", name.strip())`: trim and collapse every
whitespace run to a single space. -/
def cleanName (s : String) : String :=
  String.mk (joinSpace (wordsAux s.data []))

/-- `_STRIP_ARTICLE.sub("", key).strip()` on an already cleaned,
lowercased key: remove one leading `"the "`. -/
def stripArticle (k : String) : String :=
  if ['t', 'h', 'e', ' '].isPrefixOf k.data then String.mk (k.data.drop 4) else k

/-- One character of Python's `str.title()`: an alphabetic character is
lowercased when the previous character was alphabetic and uppercased
otherwise; a non-alphabetic character is unchanged. -/
def titleChar (prevAlpha : Bool) (ch : Char) : Char :=
  if ch.isAlpha then (if prevAlpha then ch.toLower else ch.toUpper) else ch

/-- Python `str.title()`: uppercase every alphabetic character that
follows a non-alphabetic one (or starts the string), lowercase the
rest. -/
def titleChars : Bool → List Char → List Char
  | _, [] => []
  | prevAlpha, ch :: rest => titleChar prevAlpha ch :: titleChars ch.isAlpha rest

/-- `str.title()` on a whole string. -/
def titleStr (s : String) : String :=
  String.mk (titleChars false s.data)

/-- The was-the-previous-character-alphabetic flag after `titleChars`
processes a character list starting from flag `b`. -/
def flagAfter (b : Bool) : List Char → Bool
  | [] => b
  | c :: cs => flagAfter c.isAlpha cs

/-- `normalize_country` (`helpers/countries.py`, lines 116–150), with the
lookup table passed and returned explicitly (it is module state in the
source) and the fuzzy search as a parameter.  An empty input is falsy
and returned unchanged; then: direct lookup of the cleaned lowercase
key; retry with a leading article stripped; fuzzy search, resolving the
hit through the table and memoizing; finally the title-cased cleaned
input. -/
def normalize_country (t : LookupTable) (fuzzy : String → Option String)
    (name : String) : String × LookupTable :=
  if name = "" then (name, t)
  else
    let cleaned := cleanName name
    let key := lowerStr cleaned
    match t.lookup key with
    | some v => (v, t)
    | none =>
      let stripped := stripArticle key
      match t.lookup stripped with
      | some v => (v, t)
      | none =>
        match fuzzy cleaned with
        | some found =>
          let canonical := (t.lookup (lowerStr found)).getD found
          (canonical, dictInsert t key canonical)
        | none => (titleStr cleaned, t)

/-- The loop body of `normalize_countries`: normalize each entry, keep
the first occurrence of each canonical value. -/
def normCountriesGo (fuzzy : String → Option String) :
    LookupTable → List String → List String → List String × LookupTable
  | t, acc, [] => (acc.reverse, t)
  | t, acc, c :: cs =>
    let r := normalize_country t fuzzy c
    if r.1 ∈ acc then normCountriesGo fuzzy r.2 acc cs
    else normCountriesGo fuzzy r.2 (r.1 :: acc) cs

/-- `normalize_countries` (`helpers/countries.py`, lines 153–167) on a
present list: normalize each entry and deduplicate by canonical value,
preserving first-seen order.  (The `None → None` case of the source is
not modelled: the only caller always passes a list.) -/
def normalize_countries (t : LookupTable) (fuzzy : String → Option String)
    (cs : List String) : List String × LookupTable :=
  normCountriesGo fuzzy t [] cs

/-! ## Query understanding (`helpers/query_parser.py`)

`_call_llm` tries two provider clients; `_call_count % 2` selects which
is primary, and on any exception in a provider's try block (network
error, non-2xx, `json.loads` failure, schema validation failure) the
loop continues with the other.  A provider attempt is modelled as
`Option LLMResponse`: `none` is an attempt that raised, `some data` is an
attempt whose response parsed into the JSON shape `data`.  The response
post-processing of the successful attempt (lines 304–332) is modelled by
`processResponse`. -/

/-- The `filters.category` value of the provider's JSON: absent (or
null), a bare string, or a list of strings. -/
inductive CategoryField where
  | absent
  | str (s : String)
  | list (l : List String)
deriving DecidableEq, Repr

/-- The `filters` object of the provider's JSON; `none` (absent key) and
present-but-empty values are distinguished, as in the source's
`filters.get(...) or ...` defaulting. -/
structure LLMFilters where
  subtype : Option (List String) := none
  category : CategoryField := CategoryField.absent
  country : Option (List String) := none
  fund_type : Option (List String) := none
  target_segment : Option (List String) := none
  documents_not_required : Option (List String) := none
  language_score_requirements : Option (List (String × ℚ)) := none
  eligible_nationalities : Option (List String) := none
  is_remote : Option Bool := none
  min_age : Option Int := none
  max_age : Option Int := none
  gpa : Option ℚ := none
  has_document_requirements : Option Bool := none
  has_language_requirements : Option Bool := none
  has_fee : Option Bool := none
deriving DecidableEq, Repr

/-- The provider's parsed JSON response: the optional top-level
`semantic_query` string and the `filters` object. -/
structure LLMResponse where
  semantic_query : Option String := none
  filters : LLMFilters := {}
deriving DecidableEq, Repr

/-- Lines 305–309: a truthy bare string becomes a singleton list, a falsy
value (absent, empty string, empty list) becomes `[]`, a non-empty list
is kept. -/
def normalizeCategory : CategoryField → List String
  | CategoryField.absent => []
  | CategoryField.str s => if s = "" then [] else [s]
  | CategoryField.list l => l

/-- `filters.get(key) or []`: an absent key — and, identically, a present
empty list — yields `[]`. -/
def orEmpty (o : Option (List α)) : List α := o.getD []

/-- Lines 304–332: build the `QueryConstraints` and `ParsedQuery` from a
successfully parsed provider response.  `country` and
`eligible_nationalities` are routed through `normalize_countries` (in
that evaluation order, threading the lookup table); `semantic_query`
defaults to the raw user query when the response omits it. -/
def processResponse (t : LookupTable) (fuzzy : String → Option String)
    (data : LLMResponse) (user_query : String) : ParsedQuery × LookupTable :=
  let fl := data.filters
  let rc := normalize_countries t fuzzy (orEmpty fl.country)
  let rn := normalize_countries rc.2 fuzzy (orEmpty fl.eligible_nationalities)
  ({ semantic_query := data.semantic_query.getD user_query
     constraints :=
      { subtype := orEmpty fl.subtype
        category := normalizeCategory fl.category
        country := rc.1
        fund_type := orEmpty fl.fund_type
        target_segment := orEmpty fl.target_segment
        documents_not_required := orEmpty fl.documents_not_required
        language_score_requirements := orEmpty fl.language_score_requirements
        eligible_nationalities := rn.1
        is_remote := fl.is_remote
        min_age := fl.min_age
        max_age := fl.max_age
        gpa := fl.gpa
        has_document_requirements := fl.has_document_requirements
        has_language_requirements := fl.has_language_requirements
        has_fee := fl.has_fee } },
   rn.2)

/-- `_call_llm` (lines 284–338): `primary := call_count % 2`; try the
primary attempt, and if it raised try the other attempt once; if both
raised return `None`. -/
def call_llm (attempts : Nat → Option LLMResponse) (t : LookupTable)
    (fuzzy : String → Option String) (call_count : Nat)
    (user_query : String) : Option (ParsedQuery × LookupTable) :=
  let primary := call_count % 2
  match attempts primary with
  | some data => some (processResponse t fuzzy data user_query)
  | none =>
    match attempts (1 - primary) with
    | some data => some (processResponse t fuzzy data user_query)
    | none => none

/-- `understand_query` (lines 341–354): the parsed result when some
provider succeeded, otherwise the degraded fallback
`ParsedQuery(semantic_query=user_query, constraints=QueryConstraints())`. -/
def understand_query (attempts : Nat → Option LLMResponse) (t : LookupTable)
    (fuzzy : String → Option String) (call_count : Nat)
    (user_query : String) : ParsedQuery :=
  match call_llm attempts t fuzzy call_count user_query with
  | some r => r.1
  | none => { semantic_query := user_query, constraints := {} }

/-! ## Helper lemmas -/

/-- `Char.ofNat` at a valid code point keeps the code point. -/
theorem char_toNat_ofNat_of_valid (n : Nat) (h : n.isValidChar) :
    (Char.ofNat n).toNat = n := by
  unfold Char.ofNat
  rw [dif_pos h]
  rfl

/-- The code point of `Char.toLower`: shifted by 32 on `A`–`Z`, unchanged
elsewhere. -/
theorem char_toLower_toNat (c : Char) :
    (Char.toLower c).toNat =
      if 65 ≤ c.toNat ∧ c.toNat ≤ 90 then c.toNat + 32 else c.toNat := by
  unfold Char.toLower
  split
  · next h =>
    rw [if_pos ⟨h.1, h.2⟩]
    exact char_toNat_ofNat_of_valid _ (Or.inl (by omega))
  · next h =>
    rw [if_neg h]

/-- `Char.toLower` leaves a character without an upper-case code point
unchanged. -/
theorem char_toLower_of_not_upper (c : Char)
    (h : ¬(65 ≤ c.toNat ∧ c.toNat ≤ 90)) : Char.toLower c = c := by
  unfold Char.toLower
  exact if_neg h

/-- `Char.toLower` is idempotent. -/
theorem char_toLower_idem (c : Char) :
    Char.toLower (Char.toLower c) = Char.toLower c := by
  by_cases hc : 65 ≤ c.toNat ∧ c.toNat ≤ 90
  · apply char_toLower_of_not_upper
    rw [char_toLower_toNat c, if_pos hc]
    omega
  · rw [char_toLower_of_not_upper c hc, char_toLower_of_not_upper c hc]

/-- `lowerStr` is idempotent. -/
theorem lowerStr_idem (s : String) : lowerStr (lowerStr s) = lowerStr s := by
  simp only [lowerStr, List.map_map]
  congr 1
  apply List.map_congr_left
  intro c _
  exact char_toLower_idem c

/-- Characters with equal code points are equal. -/
theorem char_eq_of_toNat_eq {c d : Char} (h : c.toNat = d.toNat) : c = d :=
  Char.eq_of_val_eq (UInt32.ext h)

/-- The code point of `Char.toUpper`: shifted by 32 on `a`–`z`, unchanged
elsewhere. -/
theorem char_toUpper_toNat (c : Char) :
    (Char.toUpper c).toNat =
      if 97 ≤ c.toNat ∧ c.toNat ≤ 122 then c.toNat - 32 else c.toNat := by
  unfold Char.toUpper
  split
  · next h =>
    rw [if_pos ⟨h.1, h.2⟩]
    exact char_toNat_ofNat_of_valid _ (Or.inl (by omega))
  · next h =>
    rw [if_neg h]

/-- `Char.toUpper` leaves a character without a lower-case code point
unchanged. -/
theorem char_toUpper_of_not_lower (c : Char)
    (h : ¬(97 ≤ c.toNat ∧ c.toNat ≤ 122)) : Char.toUpper c = c := by
  unfold Char.toUpper
  exact if_neg h

/-- `Char.toUpper` is idempotent. -/
theorem char_toUpper_idem (c : Char) :
    Char.toUpper (Char.toUpper c) = Char.toUpper c := by
  by_cases hc : 97 ≤ c.toNat ∧ c.toNat ≤ 122
  · apply char_toUpper_of_not_lower
    rw [char_toUpper_toNat c, if_pos hc]
    omega
  · rw [char_toUpper_of_not_lower c hc, char_toUpper_of_not_lower c hc]

/-- Lowering an upper-cased character lowers the original. -/
theorem char_toLower_toUpper (c : Char) :
    Char.toLower (Char.toUpper c) = Char.toLower c := by
  by_cases hc : 97 ≤ c.toNat ∧ c.toNat ≤ 122
  · have h1 : (Char.toUpper c).toNat = c.toNat - 32 := by
      rw [char_toUpper_toNat, if_pos hc]
    apply char_eq_of_toNat_eq
    rw [char_toLower_toNat, h1, if_pos (by omega),
      char_toLower_toNat, if_neg (by omega)]
    omega
  · rw [char_toUpper_of_not_lower c hc]

/-- `Char.isAlpha` characterized on code points. -/
theorem char_isAlpha_iff (c : Char) :
    c.isAlpha = true ↔
      (65 ≤ c.toNat ∧ c.toNat ≤ 90) ∨ (97 ≤ c.toNat ∧ c.toNat ≤ 122) := by
  have h65 : ((65 : UInt32) ≤ c.val ↔ 65 ≤ c.toNat) := Iff.rfl
  have h90 : (c.val ≤ (90 : UInt32) ↔ c.toNat ≤ 90) := Iff.rfl
  have h97 : ((97 : UInt32) ≤ c.val ↔ 97 ≤ c.toNat) := Iff.rfl
  have h122 : (c.val ≤ (122 : UInt32) ↔ c.toNat ≤ 122) := Iff.rfl
  simp only [Char.isAlpha, Char.isUpper, Char.isLower, Bool.or_eq_true,
    Bool.and_eq_true, decide_eq_true_eq, GE.ge]
  rw [h65, h90, h97, h122]

/-- `Char.toUpper` preserves `isAlpha`. -/
theorem char_isAlpha_toUpper (c : Char) :
    (Char.toUpper c).isAlpha = c.isAlpha := by
  by_cases hc : 97 ≤ c.toNat ∧ c.toNat ≤ 122
  · have h1 : (Char.toUpper c).toNat = c.toNat - 32 := by
      rw [char_toUpper_toNat, if_pos hc]
    have h2 : (Char.toUpper c).isAlpha = true := by
      rw [char_isAlpha_iff, h1]
      omega
    have h3 : c.isAlpha = true := by
      rw [char_isAlpha_iff]
      omega
    rw [h2, h3]
  · rw [char_toUpper_of_not_lower c hc]

/-- `Char.toLower` preserves `isAlpha`. -/
theorem char_isAlpha_toLower (c : Char) :
    (Char.toLower c).isAlpha = c.isAlpha := by
  by_cases hc : 65 ≤ c.toNat ∧ c.toNat ≤ 90
  · have h1 : (Char.toLower c).toNat = c.toNat + 32 := by
      rw [char_toLower_toNat, if_pos hc]
    have h2 : (Char.toLower c).isAlpha = true := by
      rw [char_isAlpha_iff, h1]
      omega
    have h3 : c.isAlpha = true := by
      rw [char_isAlpha_iff]
      omega
    rw [h2, h3]
  · rw [char_toLower_of_not_upper c hc]

/-- `Char.isWhitespace` characterized on code points. -/
theorem char_isWhitespace_iff (c : Char) :
    c.isWhitespace = true ↔
      c.toNat = 32 ∨ c.toNat = 9 ∨ c.toNat = 13 ∨ c.toNat = 10 := by
  simp only [Char.isWhitespace, Bool.or_eq_true, decide_eq_true_eq]
  constructor
  · rintro (((rfl | rfl) | rfl) | rfl) <;> simp
  · rintro (h | h | h | h)
    · exact Or.inl (Or.inl (Or.inl (char_eq_of_toNat_eq h)))
    · exact Or.inl (Or.inl (Or.inr (char_eq_of_toNat_eq h)))
    · exact Or.inl (Or.inr (char_eq_of_toNat_eq h))
    · exact Or.inr (char_eq_of_toNat_eq h)

/-- An alphabetic character is not whitespace. -/
theorem char_not_whitespace_of_alpha (c : Char) (h : c.isAlpha = true) :
    c.isWhitespace = false := by
  rw [char_isAlpha_iff] at h
  cases hw : c.isWhitespace with
  | false => rfl
  | true =>
    rw [char_isWhitespace_iff] at hw
    omega

/-- `titleChar` preserves `isAlpha`. -/
theorem titleChar_isAlpha (b : Bool) (c : Char) :
    (titleChar b c).isAlpha = c.isAlpha := by
  by_cases ha : c.isAlpha = true
  · cases b <;>
      simp [titleChar, ha, char_isAlpha_toLower, char_isAlpha_toUpper]
  · simp [titleChar, ha]

/-- `titleChar` is idempotent at a fixed flag. -/
theorem titleChar_idem (b : Bool) (c : Char) :
    titleChar b (titleChar b c) = titleChar b c := by
  by_cases ha : c.isAlpha = true
  · cases b <;>
      simp [titleChar, ha, char_isAlpha_toLower, char_isAlpha_toUpper,
        char_toLower_idem, char_toUpper_idem]
  · simp [titleChar, ha]

/-- Lowering a title-cased character lowers the original. -/
theorem titleChar_toLower (b : Bool) (c : Char) :
    (titleChar b c).toLower = c.toLower := by
  by_cases ha : c.isAlpha = true
  · cases b <;> simp [titleChar, ha, char_toLower_idem, char_toLower_toUpper]
  · simp [titleChar, ha]

/-- `titleChar` preserves non-whitespace. -/
theorem titleChar_not_ws (b : Bool) (c : Char) (h : c.isWhitespace = false) :
    (titleChar b c).isWhitespace = false := by
  by_cases ha : c.isAlpha = true
  · exact char_not_whitespace_of_alpha _ ((titleChar_isAlpha b c).trans ha)
  · simpa [titleChar, ha] using h

/-- `titleChars` is idempotent. -/
theorem titleChars_idem (l : List Char) :
    ∀ b, titleChars b (titleChars b l) = titleChars b l := by
  induction l with
  | nil => intro b; rfl
  | cons c cs ih =>
    intro b
    show titleChar b (titleChar b c) ::
        titleChars (titleChar b c).isAlpha (titleChars c.isAlpha cs) = _
    rw [titleChar_idem, titleChar_isAlpha, ih]
    rfl

/-- Lowering after title-casing is lowering. -/
theorem titleChars_map_toLower (l : List Char) :
    ∀ b, (titleChars b l).map Char.toLower = l.map Char.toLower := by
  induction l with
  | nil => intro b; rfl
  | cons c cs ih =>
    intro b
    show (titleChar b c).toLower :: (titleChars c.isAlpha cs).map Char.toLower = _
    rw [titleChar_toLower, ih]
    rfl

/-- `titleChars` distributes over append, with the flag threaded. -/
theorem titleChars_append (l1 : List Char) :
    ∀ (b : Bool) (l2 : List Char),
      titleChars b (l1 ++ l2) = titleChars b l1 ++ titleChars (flagAfter b l1) l2 := by
  induction l1 with
  | nil => intro b l2; rfl
  | cons c cs ih =>
    intro b l2
    show titleChar b c :: titleChars c.isAlpha (cs ++ l2) = _
    rw [ih]
    rfl

/-- `titleChars` preserves freedom from whitespace. -/
theorem titleChars_no_ws (l : List Char) :
    ∀ b, (∀ c ∈ l, c.isWhitespace = false) →
      ∀ c ∈ titleChars b l, c.isWhitespace = false := by
  induction l with
  | nil => intro b _ c hc; cases hc
  | cons a as ih =>
    intro b h c hc
    cases hc with
    | head => exact titleChar_not_ws b a (h a (List.mem_cons_self a as))
    | tail _ hm => exact ih a.isAlpha (fun x hx => h x (List.mem_cons_of_mem a hx)) c hm

/-- `titleChars` preserves non-emptiness. -/
theorem titleChars_ne_nil (b : Bool) (l : List Char) (h : l ≠ []) :
    titleChars b l ≠ [] := by
  cases l with
  | nil => exact absurd rfl h
  | cons c cs => exact fun hx => List.noConfusion hx

/-- Lowering after title-casing a string is lowering it. -/
theorem lowerStr_titleStr (s : String) : lowerStr (titleStr s) = lowerStr s :=
  congrArg String.mk (titleChars_map_toLower s.data false)

/-- `titleStr` is idempotent. -/
theorem titleStr_idem (s : String) : titleStr (titleStr s) = titleStr s :=
  congrArg String.mk (titleChars_idem s.data false)

/-- Every word produced by `wordsAux` is non-empty and free of
whitespace (given a whitespace-free accumulator). -/
theorem wordsAux_good (l : List Char) :
    ∀ cur, (∀ c ∈ cur, c.isWhitespace = false) →
      ∀ w ∈ wordsAux l cur, w ≠ [] ∧ ∀ c ∈ w, c.isWhitespace = false := by
  induction l with
  | nil =>
    intro cur hcur w hw
    cases cur with
    | nil => cases hw
    | cons a as =>
      simp only [wordsAux, List.isEmpty_cons, Bool.false_eq_true, if_false,
        List.mem_singleton] at hw
      subst hw
      refine ⟨by simp, fun c hc => hcur c ?_⟩
      rw [List.mem_reverse] at hc
      exact hc
  | cons c cs ih =>
    intro cur hcur w hw
    by_cases hws : c.isWhitespace = true
    · rw [wordsAux, if_pos hws] at hw
      cases hcur2 : cur with
      | nil =>
        subst hcur2
        simp only [List.isEmpty_nil, if_true] at hw
        exact ih [] (by intro x hx; cases hx) w hw
      | cons a as =>
        subst hcur2
        simp only [List.isEmpty_cons, if_false] at hw
        cases hw with
        | head =>
          refine ⟨by simp, fun x hx => hcur x ?_⟩
          rw [List.mem_reverse] at hx
          exact hx
        | tail _ hm => exact ih [] (by intro x hx; cases hx) w hm
    · rw [wordsAux, if_neg hws] at hw
      refine ih (c :: cur) ?_ w hw
      intro x hx
      cases hx with
      | head => exact Bool.eq_false_iff.mpr hws
      | tail _ hm => exact hcur x hm

/-- Processing a whitespace-free prefix only accumulates it. -/
theorem wordsAux_accumulates_word (w : List Char)
    (h : ∀ c ∈ w, c.isWhitespace = false) :
    ∀ (l cur : List Char), wordsAux (w ++ l) cur = wordsAux l (w.reverse ++ cur) := by
  induction w with
  | nil => intro l cur; simp
  | cons c w' ih =>
    intro l cur
    have hc : c.isWhitespace = false := h c (List.mem_cons_self c w')
    show wordsAux (c :: (w' ++ l)) cur = _
    rw [wordsAux, if_neg (by rw [hc]; exact Bool.false_ne_true)]
    rw [ih (fun x hx => h x (List.mem_cons_of_mem c hx)) l (c :: cur)]
    congr 1
    simp

/-- Splitting the space-joined image of good words recovers the words. -/
theorem wordsAux_joinSpace (ws : List (List Char))
    (h : ∀ w ∈ ws, w ≠ [] ∧ ∀ c ∈ w, c.isWhitespace = false) :
    wordsAux (joinSpace ws) [] = ws := by
  induction ws with
  | nil => rfl
  | cons w ws' ih =>
    obtain ⟨hne, hnws⟩ := h w (List.mem_cons_self w ws')
    have hwrev : w.reverse ≠ [] := by
      simpa using hne
    cases ws' with
    | nil =>
      show wordsAux w [] = [w]
      rw [← List.append_nil w, wordsAux_accumulates_word w hnws [] []]
      rw [List.append_nil, List.append_nil]
      rw [wordsAux, if_neg (by simpa using hwrev)]
      rw [List.reverse_reverse]
    | cons w2 ws'' =>
      show wordsAux (w ++ ' ' :: joinSpace (w2 :: ws'')) [] = _
      rw [wordsAux_accumulates_word w hnws _ [], List.append_nil]
      rw [wordsAux, if_pos (show (' ').isWhitespace = true from rfl),
        if_neg (show ¬(w.reverse.isEmpty = true) by simpa using hwrev)]
      rw [List.reverse_reverse]
      rw [ih (fun x hx => h x (List.mem_cons_of_mem w hx))]

/-- The words of any cleaned string are good. -/
theorem wordsAux_data_good (l : List Char) :
    ∀ w ∈ wordsAux l [], w ≠ [] ∧ ∀ c ∈ w, c.isWhitespace = false :=
  wordsAux_good l [] (by intro x hx; cases hx)

/-- `cleanName` is idempotent. -/
theorem cleanName_idem (s : String) : cleanName (cleanName s) = cleanName s := by
  show String.mk (joinSpace (wordsAux (joinSpace (wordsAux s.data [])) [])) = _
  rw [wordsAux_joinSpace _ (wordsAux_data_good s.data)]
  rfl

/-- Title-casing maps the space-joined words to the space-join of the
title-cased words. -/
theorem titleChars_joinSpace (ws : List (List Char)) :
    titleChars false (joinSpace ws) = joinSpace (ws.map (titleChars false)) := by
  induction ws with
  | nil => rfl
  | cons w ws' ih =>
    cases ws' with
    | nil => rfl
    | cons w2 ws'' =>
      show titleChars false (w ++ ' ' :: joinSpace (w2 :: ws'')) = _
      rw [titleChars_append]
      rw [show titleChars (flagAfter false w) (' ' :: joinSpace (w2 :: ws'')) =
        titleChar (flagAfter false w) ' ' ::
          titleChars (' ').isAlpha (joinSpace (w2 :: ws'')) from rfl]
      have hsp : titleChar (flagAfter false w) ' ' = ' ' := by
        simp [titleChar]
      have hal : (' ').isAlpha = false := rfl
      rw [hsp, hal, ih]
      rfl

/-- A title-cased clean string is clean: `cleanName` fixes the
title-casing of a cleaned string. -/
theorem cleanName_titleStr_cleanName (s : String) :
    cleanName (titleStr (cleanName s)) = titleStr (cleanName s) := by
  show String.mk (joinSpace (wordsAux (titleChars false
    (joinSpace (wordsAux s.data []))) [])) = _
  rw [titleChars_joinSpace]
  rw [wordsAux_joinSpace]
  · show _ = String.mk (titleChars false (joinSpace (wordsAux s.data [])))
    rw [titleChars_joinSpace]
  · intro w hw
    rw [List.mem_map] at hw
    obtain ⟨w0, hw0, rfl⟩ := hw
    obtain ⟨hne, hnws⟩ := wordsAux_data_good s.data w0 hw0
    exact ⟨titleChars_ne_nil false w0 hne, titleChars_no_ws w0 false hnws⟩

/-- When some condition reached the `must` accumulator, the compiled
filter is present and its `must` member is exactly the accumulator. -/
theorem build_some_of_mem_must (c : QueryConstraints) (x : Condition)
    (h : x ∈ mustConds c) :
    ∃ f, build_qdrant_filter c = some f ∧ f.must.getD [] = mustConds c := by
  have hne : (mustConds c).isEmpty = false := by
    cases hm : mustConds c with
    | nil => rw [hm] at h; exact absurd h (List.not_mem_nil x)
    | cons a l => rfl
  refine ⟨⟨some (mustConds c),
    if (mustNotConds c).isEmpty then none else some (mustNotConds c)⟩, ?_, rfl⟩
  simp [build_qdrant_filter, hne]

/-- When some condition reached the `must_not` accumulator, the compiled
filter is present and its `must_not` member is exactly the
accumulator. -/
theorem build_some_of_mem_mustNot (c : QueryConstraints) (x : Condition)
    (h : x ∈ mustNotConds c) :
    ∃ f, build_qdrant_filter c = some f ∧ f.mustNot.getD [] = mustNotConds c := by
  have hne : (mustNotConds c).isEmpty = false := by
    cases hm : mustNotConds c with
    | nil => rw [hm] at h; exact absurd h (List.not_mem_nil x)
    | cons a l => rfl
  refine ⟨⟨if (mustConds c).isEmpty then none else some (mustConds c),
    some (mustNotConds c)⟩, ?_, rfl⟩
  simp [build_qdrant_filter, hne]

/-- An existing binding survives appending. -/
theorem lookup_append_some {t l : LookupTable} {k v : String}
    (h : t.lookup k = some v) : (t ++ l).lookup k = some v := by
  rw [List.lookup_append, h]
  rfl

/-- A successful lookup is a membership. -/
theorem mem_of_lookup_eq_some {l : LookupTable} {k v : String}
    (h : l.lookup k = some v) : (k, v) ∈ l := by
  obtain ⟨l1, l2, rfl, -⟩ := List.lookup_eq_some_iff.mp h
  simp

/-- `normalize_country` on the empty string returns it unchanged. -/
theorem normalize_country_empty (t : LookupTable) (fz : String → Option String) :
    normalize_country t fz "" = ("", t) := rfl

/-- `normalize_country` on a direct lookup hit. -/
theorem normalize_country_hit (t : LookupTable) (fz : String → Option String)
    (x v : String) (hx : x ≠ "")
    (h : t.lookup (lowerStr (cleanName x)) = some v) :
    normalize_country t fz x = (v, t) := by
  unfold normalize_country
  rw [if_neg hx]
  simp only [h]

/-- `normalize_country` on an article-stripped lookup hit. -/
theorem normalize_country_stripped_hit (t : LookupTable)
    (fz : String → Option String) (x v : String) (hx : x ≠ "")
    (h1 : t.lookup (lowerStr (cleanName x)) = none)
    (h2 : t.lookup (stripArticle (lowerStr (cleanName x))) = some v) :
    normalize_country t fz x = (v, t) := by
  unfold normalize_country
  rw [if_neg hx]
  simp only [h1, h2]

/-- `normalize_country` on a fuzzy hit that resolves through the table:
the resolved canonical is returned and memoized. -/
theorem normalize_country_fuzzy_hit (t : LookupTable)
    (fz : String → Option String) (x found w : String) (hx : x ≠ "")
    (h1 : t.lookup (lowerStr (cleanName x)) = none)
    (h2 : t.lookup (stripArticle (lowerStr (cleanName x))) = none)
    (h3 : fz (cleanName x) = some found)
    (h4 : t.lookup (lowerStr found) = some w) :
    normalize_country t fz x = (w, dictInsert t (lowerStr (cleanName x)) w) := by
  unfold normalize_country
  rw [if_neg hx]
  simp only [h1, h2, h3, h4, Option.getD_some]

/-- `normalize_country` on a total miss: title-cased cleaned input. -/
theorem normalize_country_miss (t : LookupTable)
    (fz : String → Option String) (x : String) (hx : x ≠ "")
    (h1 : t.lookup (lowerStr (cleanName x)) = none)
    (h2 : t.lookup (stripArticle (lowerStr (cleanName x))) = none)
    (h3 : fz (cleanName x) = none) :
    normalize_country t fz x = (titleStr (cleanName x), t) := by
  unfold normalize_country
  rw [if_neg hx]
  simp only [h1, h2, h3]

/-- The guarded registry insertion preserves every existing binding. -/
theorem insertIfAbsent_preserves (k' v' : String) {t : LookupTable}
    {k v : String} (h : t.lookup k = some v) :
    (insertIfAbsent t k' v').lookup k = some v := by
  unfold insertIfAbsent
  split
  · exact h
  · exact lookup_append_some h

/-- One registry entry's insertions preserve every existing binding. -/
theorem insertRegistryEntry_preserves (e : RegistryEntry) {t : LookupTable}
    {k v : String} (h : t.lookup k = some v) :
    (insertRegistryEntry t e).lookup k = some v := by
  unfold insertRegistryEntry
  cases ho : e.official_name <;> cases hc : e.common_name <;>
    simp only [ho, hc] <;>
    (repeat' apply insertIfAbsent_preserves) <;> exact h

/-- The whole registry phase preserves every existing binding. -/
theorem foldl_insertRegistry_preserves (es : List RegistryEntry) :
    ∀ (t : LookupTable) (k v : String), t.lookup k = some v →
      (es.foldl insertRegistryEntry t).lookup k = some v := by
  induction es with
  | nil => intro t k v h; exact h
  | cons e es ih =>
    intro t k v h
    exact ih _ _ _ (insertRegistryEntry_preserves e h)

/-- Custom-table bindings survive into the shipped `_LOOKUP`. -/
theorem shippedLookup_preserves_custom {k v : String}
    (h : customLookup.lookup k = some v) : shippedLookup.lookup k = some v :=
  foldl_insertRegistry_preserves pycountryRegistry customLookup k v h

/-! ## Claims about the filter compiler -/

/-- **C1.** For every `Constraints` record in which every list field is
empty, the language-score map is empty, and every optional scalar is
absent, `build_qdrant_filter` returns absent (`none`), not an
empty-but-present filter tree. -/
theorem build_filter_all_unconstrained_absent (c : QueryConstraints)
    (h1 : c.subtype = []) (h2 : c.category = []) (h3 : c.country = [])
    (h4 : c.fund_type = []) (h5 : c.target_segment = [])
    (h6 : c.documents_not_required = [])
    (h7 : c.language_score_requirements = [])
    (h8 : c.eligible_nationalities = [])
    (h9 : c.is_remote = none) (h10 : c.min_age = none) (h11 : c.max_age = none)
    (h12 : c.gpa = none) (h13 : c.has_document_requirements = none)
    (h14 : c.has_language_requirements = none) (h15 : c.has_fee = none) :
    build_qdrant_filter c = none := by
  simp [build_qdrant_filter, mustConds, mustNotConds, listFieldConds, boolFieldConds,
    nationalityConds, minAgeConds, maxAgeConds, gpaConds, documentsNotRequiredConds,
    languageScoreConds, h1, h2, h3, h4, h5, h6, h7, h8, h9, h10, h11, h12, h13, h14, h15]

/-- Witness for C1 at the default (all-unconstrained) record. -/
theorem build_filter_all_unconstrained_absent_witness :
    build_qdrant_filter {} = none :=
  build_filter_all_unconstrained_absent {} rfl rfl rfl rfl rfl rfl rfl rfl rfl rfl
    rfl rfl rfl rfl rfl

/-- **C2.** Whenever `min_age`, `max_age` or `gpa` is present, the
compiled filter's outer `must` contains the corresponding null-safe
`should` group ({range} OR {is-null}); and for `min_age=16, max_age=16`
the compiled filter admits a candidate with no min/max age fields,
admits a candidate with `min_age=16`/`max_age=16`, and rejects a
candidate with `min_age=18`. -/
theorem numeric_null_safe_should_groups :
    (∀ (c : QueryConstraints) (a : Int), c.min_age = some a →
      ∃ f, build_qdrant_filter c = some f ∧
        Condition.filterCond [] []
          [Condition.fieldRange "min_age" { lte := some (a : ℚ) },
           Condition.isNull "min_age"] ∈ f.must.getD []) ∧
    (∀ (c : QueryConstraints) (a : Int), c.max_age = some a →
      ∃ f, build_qdrant_filter c = some f ∧
        Condition.filterCond [] []
          [Condition.fieldRange "max_age" { gte := some (a : ℚ) },
           Condition.isNull "max_age"] ∈ f.must.getD []) ∧
    (∀ (c : QueryConstraints) (g : ℚ), c.gpa = some g →
      ∃ f, build_qdrant_filter c = some f ∧
        Condition.filterCond [] []
          [Condition.fieldRange "gpa" { gte := some 0, lte := some g },
           Condition.isNull "gpa"] ∈ f.must.getD []) ∧
    admits (build_qdrant_filter { min_age := some 16, max_age := some 16 }) {} = true ∧
    admits (build_qdrant_filter { min_age := some 16, max_age := some 16 })
      { num := [("min_age", 16), ("max_age", 16)] } = true ∧
    admits (build_qdrant_filter { min_age := some 16, max_age := some 16 })
      { num := [("min_age", 18)] } = false := by
  refine ⟨?_, ?_, ?_, by decide, by decide, by decide⟩
  · intro c a h
    have hx : Condition.filterCond [] []
        [Condition.fieldRange "min_age" { lte := some (a : ℚ) },
         Condition.isNull "min_age"] ∈ mustConds c := by
      simp [mustConds, minAgeConds, h]
    obtain ⟨f, hf, hm⟩ := build_some_of_mem_must c _ hx
    exact ⟨f, hf, by rw [hm]; exact hx⟩
  · intro c a h
    have hx : Condition.filterCond [] []
        [Condition.fieldRange "max_age" { gte := some (a : ℚ) },
         Condition.isNull "max_age"] ∈ mustConds c := by
      simp [mustConds, maxAgeConds, h]
    obtain ⟨f, hf, hm⟩ := build_some_of_mem_must c _ hx
    exact ⟨f, hf, by rw [hm]; exact hx⟩
  · intro c g h
    have hx : Condition.filterCond [] []
        [Condition.fieldRange "gpa" { gte := some 0, lte := some g },
         Condition.isNull "gpa"] ∈ mustConds c := by
      simp [mustConds, gpaConds, h]
    obtain ⟨f, hf, hm⟩ := build_some_of_mem_must c _ hx
    exact ⟨f, hf, by rw [hm]; exact hx⟩

/-- Witness for C2: the three hypothesis-carrying conjuncts applied at
concrete constraints. -/
theorem numeric_null_safe_should_groups_witness :
    (∃ f, build_qdrant_filter { min_age := some 16 } = some f ∧
      Condition.filterCond [] []
        [Condition.fieldRange "min_age" { lte := some ((16 : Int) : ℚ) },
         Condition.isNull "min_age"] ∈ f.must.getD []) ∧
    (∃ f, build_qdrant_filter { max_age := some 16 } = some f ∧
      Condition.filterCond [] []
        [Condition.fieldRange "max_age" { gte := some ((16 : Int) : ℚ) },
         Condition.isNull "max_age"] ∈ f.must.getD []) ∧
    (∃ f, build_qdrant_filter { gpa := some (mkRat 16 5) } = some f ∧
      Condition.filterCond [] []
        [Condition.fieldRange "gpa" { gte := some 0, lte := some (mkRat 16 5) },
         Condition.isNull "gpa"] ∈ f.must.getD []) :=
  ⟨numeric_null_safe_should_groups.1 { min_age := some 16 } 16 rfl,
   numeric_null_safe_should_groups.2.1 { max_age := some 16 } 16 rfl,
   numeric_null_safe_should_groups.2.2.1 { gpa := some (mkRat 16 5) } (mkRat 16 5) rfl⟩

/-- **C3.** For every `(exam, score)` pair of `language_score_requirements`,
the compiled filter's `must_not` contains one nested condition over
`exam_scores` requiring name = (lowercased) exam AND score > user's
score; and for `{"ielts": 6.5}` (6.5 = `mkRat 13 2`) the compiled
filter rejects a candidate requiring IELTS 7.0 and admits candidates
requiring IELTS 6.0, requiring only TOEFL, or with no exam-score
records. -/
theorem language_scores_must_not_nested :
    (∀ (c : QueryConstraints) (exam : String) (score : ℚ),
      (exam, score) ∈ c.language_score_requirements →
      ∃ f, build_qdrant_filter c = some f ∧
        Condition.nestedCond "exam_scores"
          [Condition.fieldMatch "name" (MatchVal.s (lowerStr exam)),
           Condition.fieldRange "score" { gt := some score }] [] []
          ∈ f.mustNot.getD []) ∧
    admits (build_qdrant_filter { language_score_requirements := [("ielts", mkRat 13 2)] })
      { nested := [("exam_scores", [⟨"ielts", 7⟩])] } = false ∧
    admits (build_qdrant_filter { language_score_requirements := [("ielts", mkRat 13 2)] })
      { nested := [("exam_scores", [⟨"ielts", 6⟩])] } = true ∧
    admits (build_qdrant_filter { language_score_requirements := [("ielts", mkRat 13 2)] })
      { nested := [("exam_scores", [⟨"toefl", 7⟩])] } = true ∧
    admits (build_qdrant_filter { language_score_requirements := [("ielts", mkRat 13 2)] })
      {} = true := by
  refine ⟨?_, by decide, by decide, by decide, by decide⟩
  intro c exam score h
  have hx : Condition.nestedCond "exam_scores"
      [Condition.fieldMatch "name" (MatchVal.s (lowerStr exam)),
       Condition.fieldRange "score" { gt := some score }] [] []
      ∈ mustNotConds c := by
    simp only [mustNotConds, languageScoreConds, List.mem_append, List.mem_map]
    exact Or.inr ⟨(exam, score), h, rfl⟩
  obtain ⟨f, hf, hm⟩ := build_some_of_mem_mustNot c _ hx
  exact ⟨f, hf, by rw [hm]; exact hx⟩

/-- Witness for C3: the hypothesis-carrying conjunct applied at the
concrete `{"ielts": 6.5}` constraints. -/
theorem language_scores_must_not_nested_witness :
    ∃ f, build_qdrant_filter { language_score_requirements := [("ielts", mkRat 13 2)] }
        = some f ∧
      Condition.nestedCond "exam_scores"
        [Condition.fieldMatch "name" (MatchVal.s (lowerStr "ielts")),
         Condition.fieldRange "score" { gt := some (mkRat 13 2) }] [] []
        ∈ f.mustNot.getD [] :=
  language_scores_must_not_nested.1
    { language_score_requirements := [("ielts", mkRat 13 2)] } "ielts" (mkRat 13 2)
    (List.mem_singleton.mpr rfl)

/-- **C4.** For every non-empty `eligible_nationalities` list, the
compiled filter's outer `must` contains the `should` group of the
sentinel `"all"` equality plus one equality per listed nationality; and
for `["Egypt"]` the compiled filter admits candidates with nationality
sets `["all"]` and `["Egypt","Jordan"]` and rejects one with
`["Jordan"]` only. -/
theorem nationalities_sentinel_should_group :
    (∀ (c : QueryConstraints), c.eligible_nationalities ≠ [] →
      ∃ f, build_qdrant_filter c = some f ∧
        Condition.filterCond [] []
          (Condition.fieldMatch "eligible_nationalities" (MatchVal.s "all") ::
            c.eligible_nationalities.map fun nat =>
              Condition.fieldMatch "eligible_nationalities" (MatchVal.s nat))
          ∈ f.must.getD []) ∧
    admits (build_qdrant_filter { eligible_nationalities := ["Egypt"] })
      { kw := [("eligible_nationalities", ["all"])] } = true ∧
    admits (build_qdrant_filter { eligible_nationalities := ["Egypt"] })
      { kw := [("eligible_nationalities", ["Egypt", "Jordan"])] } = true ∧
    admits (build_qdrant_filter { eligible_nationalities := ["Egypt"] })
      { kw := [("eligible_nationalities", ["Jordan"])] } = false := by
  refine ⟨?_, by decide, by decide, by decide⟩
  intro c h
  obtain ⟨x, xs, he⟩ : ∃ x xs, c.eligible_nationalities = x :: xs := by
    cases hcc : c.eligible_nationalities with
    | nil => exact absurd hcc h
    | cons a l => exact ⟨a, l, rfl⟩
  have hx : Condition.filterCond [] []
      (Condition.fieldMatch "eligible_nationalities" (MatchVal.s "all") ::
        c.eligible_nationalities.map fun nat =>
          Condition.fieldMatch "eligible_nationalities" (MatchVal.s nat))
      ∈ mustConds c := by
    simp [mustConds, nationalityConds, he]
  obtain ⟨f, hf, hm⟩ := build_some_of_mem_must c _ hx
  exact ⟨f, hf, by rw [hm]; exact hx⟩

/-- Witness for C4: the hypothesis-carrying conjunct applied at
`eligible_nationalities = ["Egypt"]`. -/
theorem nationalities_sentinel_should_group_witness :
    ∃ f, build_qdrant_filter { eligible_nationalities := ["Egypt"] } = some f ∧
      Condition.filterCond [] []
        (Condition.fieldMatch "eligible_nationalities" (MatchVal.s "all") ::
          (["Egypt"].map fun nat =>
            Condition.fieldMatch "eligible_nationalities" (MatchVal.s nat)))
        ∈ f.must.getD [] :=
  nationalities_sentinel_should_group.1 { eligible_nationalities := ["Egypt"] }
    (by decide)

/-- **C10.** A non-empty `country` list is compiled under the generic
plain-set-field rule: a singleton yields one direct equality condition
on `country` in the outer `must`, and two or more values yield one
`should` group of per-value equality conditions in the outer `must`. -/
theorem country_generic_list_field :
    (∀ (c : QueryConstraints) (v : String), c.country = [v] →
      ∃ f, build_qdrant_filter c = some f ∧
        Condition.fieldMatch "country" (MatchVal.s v) ∈ f.must.getD []) ∧
    (∀ (c : QueryConstraints) (v w : String) (vs : List String),
      c.country = v :: w :: vs →
      ∃ f, build_qdrant_filter c = some f ∧
        Condition.filterCond [] []
          (c.country.map fun x => Condition.fieldMatch "country" (MatchVal.s x))
          ∈ f.must.getD []) := by
  constructor
  · intro c v h
    have hx : Condition.fieldMatch "country" (MatchVal.s v) ∈ mustConds c := by
      simp [mustConds, listFieldConds, h]
    obtain ⟨f, hf, hm⟩ := build_some_of_mem_must c _ hx
    exact ⟨f, hf, by rw [hm]; exact hx⟩
  · intro c v w vs h
    have hx : Condition.filterCond [] []
        (c.country.map fun x => Condition.fieldMatch "country" (MatchVal.s x))
        ∈ mustConds c := by
      simp [mustConds, listFieldConds, h]
    obtain ⟨f, hf, hm⟩ := build_some_of_mem_must c _ hx
    exact ⟨f, hf, by rw [hm]; exact hx⟩

/-- Witness for C10 at `country = ["Germany"]` and
`country = ["Germany", "France"]`. -/
theorem country_generic_list_field_witness :
    (∃ f, build_qdrant_filter { country := ["Germany"] } = some f ∧
      Condition.fieldMatch "country" (MatchVal.s "Germany") ∈ f.must.getD []) ∧
    (∃ f, build_qdrant_filter { country := ["Germany", "France"] } = some f ∧
      Condition.filterCond [] []
        (["Germany", "France"].map fun x =>
          Condition.fieldMatch "country" (MatchVal.s x))
        ∈ f.must.getD []) :=
  ⟨country_generic_list_field.1 { country := ["Germany"] } "Germany" rfl,
   country_generic_list_field.2 { country := ["Germany", "France"] }
     "Germany" "France" [] rfl⟩

/-! ## Claims about query understanding -/

/-- Unfolding of `understand_query` into the two sequential provider
attempts and the degraded fallback. -/
theorem understand_query_eq (attempts : Nat → Option LLMResponse)
    (t : LookupTable) (fz : String → Option String) (cc : Nat) (q : String) :
    understand_query attempts t fz cc q =
      match attempts (cc % 2) with
      | some d => (processResponse t fz d q).1
      | none =>
        match attempts (1 - cc % 2) with
        | some d => (processResponse t fz d q).1
        | none => { semantic_query := q, constraints := {} } := by
  unfold understand_query call_llm
  cases h1 : attempts (cc % 2) <;> cases h2 : attempts (1 - cc % 2) <;>
    simp [h1, h2]

/-- The `semantic_query` of a processed response is the provider's value
when present, else the raw query. -/
theorem processResponse_semantic_query (t : LookupTable)
    (fz : String → Option String) (d : LLMResponse) (q : String) :
    (processResponse t fz d q).1.semantic_query = d.semantic_query.getD q := rfl

/-- **C5.** `understand_query` tries the selected primary provider and
uses its processed response when it succeeds; on primary failure it uses
the secondary's processed response when that succeeds; when both fail it
returns, without raising, the degraded `ParsedQuery` whose
`semantic_query` is the raw input verbatim and whose constraints have
every list field empty, the score map empty and every optional scalar
absent. -/
theorem understand_query_failover (attempts : Nat → Option LLMResponse)
    (t : LookupTable) (fz : String → Option String) (cc : Nat) (q : String) :
    (∀ d, attempts (cc % 2) = some d →
      understand_query attempts t fz cc q = (processResponse t fz d q).1) ∧
    (∀ d, attempts (cc % 2) = none → attempts (1 - cc % 2) = some d →
      understand_query attempts t fz cc q = (processResponse t fz d q).1) ∧
    (attempts (cc % 2) = none → attempts (1 - cc % 2) = none →
      understand_query attempts t fz cc q =
        { semantic_query := q,
          constraints :=
            { subtype := [], category := [], country := [], fund_type := [],
              target_segment := [], documents_not_required := [],
              language_score_requirements := [], eligible_nationalities := [],
              is_remote := none, min_age := none, max_age := none, gpa := none,
              has_document_requirements := none,
              has_language_requirements := none, has_fee := none } }) := by
  refine ⟨?_, ?_, ?_⟩
  · intro d h
    rw [understand_query_eq]
    simp [h]
  · intro d h1 h2
    rw [understand_query_eq]
    simp [h1, h2]
  · intro h1 h2
    rw [understand_query_eq]
    simp [h1, h2]

/-- Witness for C5: a primary success, a primary failure with secondary
success, and a double failure, each at concrete inputs. -/
theorem understand_query_failover_witness :
    (understand_query (fun i => if i = 0 then some {} else none) []
        (fun _ => none) 0 "q" = (processResponse [] (fun _ => none) {} "q").1) ∧
    (understand_query (fun i => if i = 1 then some {} else none) []
        (fun _ => none) 0 "q" = (processResponse [] (fun _ => none) {} "q").1) ∧
    (understand_query (fun _ => none) [] (fun _ => none) 0 "منح للمصريين" =
      { semantic_query := "منح للمصريين",
        constraints :=
          { subtype := [], category := [], country := [], fund_type := [],
            target_segment := [], documents_not_required := [],
            language_score_requirements := [], eligible_nationalities := [],
            is_remote := none, min_age := none, max_age := none, gpa := none,
            has_document_requirements := none,
            has_language_requirements := none, has_fee := none } }) :=
  ⟨(understand_query_failover (fun i => if i = 0 then some {} else none) []
      (fun _ => none) 0 "q").1 {} rfl,
   (understand_query_failover (fun i => if i = 1 then some {} else none) []
      (fun _ => none) 0 "q").2.1 {} rfl rfl,
   (understand_query_failover (fun _ => none) [] (fun _ => none) 0
      "منح للمصريين").2.2 rfl rfl⟩

/-- **C8 counterexample.** A provider response whose `semantic_query` is
the empty string is passed through: the produced record's
`semantic_query` is empty, so it is not "never empty". -/
theorem semantic_query_empty_counterexample :
    (understand_query (fun _ => some { semantic_query := some "" }) []
      (fun _ => none) 0 "fully funded masters").semantic_query = "" := by decide

/-- **C8 (amended).** The produced `semantic_query` is the provider's
`semantic_query` when present, else the raw query verbatim; hence it is
non-empty whenever the raw query is non-empty and every provider
response carries a non-empty `semantic_query` when it carries one at
all. -/
theorem semantic_query_nonempty_of_sources_nonempty
    (attempts : Nat → Option LLMResponse) (t : LookupTable)
    (fz : String → Option String) (cc : Nat) (q : String) (hq : q ≠ "")
    (hp : ∀ i d s, attempts i = some d → d.semantic_query = some s → s ≠ "") :
    (understand_query attempts t fz cc q).semantic_query ≠ "" := by
  rw [understand_query_eq]
  cases h1 : attempts (cc % 2) with
  | some d =>
    rw [processResponse_semantic_query]
    cases hs : d.semantic_query with
    | none => simpa using hq
    | some s => simpa using hp _ _ _ h1 hs
  | none =>
    cases h2 : attempts (1 - cc % 2) with
    | some d =>
      rw [processResponse_semantic_query]
      cases hs : d.semantic_query with
      | none => simpa using hq
      | some s => simpa using hp _ _ _ h2 hs
    | none => simpa using hq

/-- Witness for the amended C8 at a double provider failure and a
non-empty raw query. -/
theorem semantic_query_nonempty_of_sources_nonempty_witness :
    (understand_query (fun _ => none) [] (fun _ => none) 0
      "masters in Germany").semantic_query ≠ "" :=
  semantic_query_nonempty_of_sources_nonempty (fun _ => none) [] (fun _ => none)
    0 "masters in Germany" (by decide) (fun _ _ _ h _ => Option.noConfusion h)

/-- **C9 counterexample.** Post-processing does not lowercase the
exam-name keys: a provider response with key `"IELTS"` yields a
`Constraints` whose `language_score_requirements` key is `"IELTS"`,
which is not lowercase. -/
theorem language_keys_not_lowercased_counterexample :
    (understand_query
        (fun _ => some
          { filters := { language_score_requirements := some [("IELTS", 7)] } })
        [] (fun _ => none) 0 "q").constraints.language_score_requirements
      = [("IELTS", 7)] ∧ lowerStr "IELTS" ≠ "IELTS" := by decide

/-- **C9 (amended).** The exam-name keys of `language_score_requirements`
pass through post-processing verbatim; the lowercasing happens in the
filter compiler, whose emitted nested exam-name match value is the
lowercased key — a lowercase (lowerStr-fixed) string — for every pair of
every `Constraints`. -/
theorem filter_exam_name_values_lowercase (c : QueryConstraints)
    (exam : String) (score : ℚ)
    (h : (exam, score) ∈ c.language_score_requirements) :
    Condition.nestedCond "exam_scores"
      [Condition.fieldMatch "name" (MatchVal.s (lowerStr exam)),
       Condition.fieldRange "score" { gt := some score }] [] []
      ∈ mustNotConds c
    ∧ lowerStr (lowerStr exam) = lowerStr exam := by
  constructor
  · simp only [mustNotConds, languageScoreConds, List.mem_append, List.mem_map]
    exact Or.inr ⟨(exam, score), h, rfl⟩
  · exact lowerStr_idem exam

/-! ## Claims about the entity normalizer -/

/-- **C7.** For every input whose cleaned, lowercased key is an alias of
the hand-curated custom table, `normalize_country` on the shipped lookup
table returns the custom table's canonical short form (and leaves the
table unchanged): the bulk registry phase never overrides a custom
entry. -/
theorem custom_alias_canonical (fz : String → Option String) (x c : String)
    (hx : x ≠ "")
    (h : customLookup.lookup (lowerStr (cleanName x)) = some c) :
    normalize_country shippedLookup fz x = (c, shippedLookup) :=
  normalize_country_hit shippedLookup fz x c hx (shippedLookup_preserves_custom h)

set_option maxRecDepth 8000 in
/-- Witness for C7 at the spec's named aliases: "Kingdom of Saudi
Arabia" → "Saudi Arabia", "U.S.A" → "USA", and "uk"/"U.K."/"Great
Britain" → "UK". -/
theorem custom_alias_canonical_witness :
    normalize_country shippedLookup (fun _ => none) "Kingdom of Saudi Arabia"
      = ("Saudi Arabia", shippedLookup) ∧
    normalize_country shippedLookup (fun _ => none) "U.S.A"
      = ("USA", shippedLookup) ∧
    normalize_country shippedLookup (fun _ => none) "uk"
      = ("UK", shippedLookup) ∧
    normalize_country shippedLookup (fun _ => none) "U.K."
      = ("UK", shippedLookup) ∧
    normalize_country shippedLookup (fun _ => none) "Great Britain"
      = ("UK", shippedLookup) :=
  ⟨custom_alias_canonical (fun _ => none) "Kingdom of Saudi Arabia" "Saudi Arabia"
      (by decide) (by decide),
   custom_alias_canonical (fun _ => none) "U.S.A" "USA" (by decide) (by decide),
   custom_alias_canonical (fun _ => none) "uk" "UK" (by decide) (by decide),
   custom_alias_canonical (fun _ => none) "U.K." "UK" (by decide) (by decide),
   custom_alias_canonical (fun _ => none) "Great Britain" "UK" (by decide) (by decide)⟩

set_option maxRecDepth 8000 in
/-- **C6 counterexample.** `normalize_country` is not idempotent on the
shipped table: the ISO code "ru" resolves to the registry name "Russian
Federation", but normalizing "Russian Federation" yields the custom
canonical "Russia". -/
theorem normalize_country_not_idempotent_counterexample :
    (normalize_country shippedLookup (fun _ => none) "ru").1
        = "Russian Federation" ∧
    (normalize_country (normalize_country shippedLookup (fun _ => none) "ru").2
        (fun _ => none)
        (normalize_country shippedLookup (fun _ => none) "ru").1).1 = "Russia" ∧
    ¬((normalize_country (normalize_country shippedLookup (fun _ => none) "ru").2
        (fun _ => none)
        (normalize_country shippedLookup (fun _ => none) "ru").1).1
      = (normalize_country shippedLookup (fun _ => none) "ru").1) := by
  refine ⟨by decide, by decide, by decide⟩

/-- **C6 (amended).** `normalize_country` is idempotent whenever the
lookup table is canonical-closed (each stored value's own key resolves
back to that value) and the fuzzy search is insensitive to
cleaning/casing and resolves within the table.  (The shipped table is
not canonical-closed — bulk alpha-code entries point at registry names
shadowed by custom aliases, e.g. "ru" — which is exactly where
idempotence fails.) -/
theorem normalize_country_idempotent_of_canonical_closed
    (t : LookupTable) (fz : String → Option String)
    (hclosed : ∀ k v, t.lookup k = some v →
      t.lookup (lowerStr (cleanName v)) = some v)
    (hfz_ci : ∀ s₁ s₂, lowerStr (cleanName s₁) = lowerStr (cleanName s₂) →
      fz s₁ = fz s₂)
    (hfz_res : ∀ s r, fz s = some r → (t.lookup (lowerStr r)).isSome)
    (x : String) :
    (normalize_country (normalize_country t fz x).2 fz
        (normalize_country t fz x).1).1 = (normalize_country t fz x).1 := by
  have hfix : ∀ v, t.lookup (lowerStr (cleanName v)) = some v →
      (normalize_country t fz v).1 = v := by
    intro v hv
    by_cases hv0 : v = ""
    · subst hv0
      rfl
    · rw [normalize_country_hit t fz v v hv0 hv]
  by_cases hx : x = ""
  · subst hx
    rfl
  cases hdir : t.lookup (lowerStr (cleanName x)) with
  | some v =>
    rw [normalize_country_hit t fz x v hx hdir]
    exact hfix v (hclosed _ _ hdir)
  | none =>
    cases hstr : t.lookup (stripArticle (lowerStr (cleanName x))) with
    | some v =>
      rw [normalize_country_stripped_hit t fz x v hx hdir hstr]
      exact hfix v (hclosed _ _ hstr)
    | none =>
      cases hfz : fz (cleanName x) with
      | some found =>
        obtain ⟨w, hw⟩ := Option.isSome_iff_exists.mp (hfz_res _ _ hfz)
        rw [normalize_country_fuzzy_hit t fz x found w hx hdir hstr hfz hw]
        by_cases hw0 : w = ""
        · subst hw0
          rfl
        · have hd : dictInsert t (lowerStr (cleanName x)) w
              = t ++ [(lowerStr (cleanName x), w)] := by
            unfold dictInsert
            rw [if_neg (by simp [hdir])]
          rw [hd, normalize_country_hit _ fz w w hw0
            (lookup_append_some (hclosed _ _ hw))]
      | none =>
        rw [normalize_country_miss t fz x hx hdir hstr hfz]
        by_cases ht0 : titleStr (cleanName x) = ""
        · rw [ht0]
          rfl
        · have hclean2 : cleanName (titleStr (cleanName x)) = titleStr (cleanName x) :=
            cleanName_titleStr_cleanName x
          have hkey2 : lowerStr (cleanName (titleStr (cleanName x)))
              = lowerStr (cleanName x) := by
            rw [hclean2, lowerStr_titleStr]
          have hfz2 : fz (cleanName (titleStr (cleanName x))) = none := by
            rw [hfz_ci (cleanName (titleStr (cleanName x))) (cleanName x) ?_, hfz]
            rw [cleanName_idem, hkey2, cleanName_idem]
          rw [normalize_country_miss t fz (titleStr (cleanName x)) ht0
            (by rw [hkey2]; exact hdir) (by rw [hkey2]; exact hstr)
            (by rw [hclean2] at hfz2 ⊢; exact hfz2)]
          rw [hclean2]
          exact congrArg Prod.fst (congrArg (fun z => (z, t)) (titleStr_idem (cleanName x)))

set_option maxRecDepth 100000 in
/-- The custom alias table alone is canonical-closed: every stored
canonical's own key resolves back to it. -/
theorem customLookup_canonical_closed :
    ∀ k v, customLookup.lookup k = some v →
      customLookup.lookup (lowerStr (cleanName v)) = some v := by
  have hall : customLookup.all
      (fun p => customLookup.lookup (lowerStr (cleanName p.2)) == some p.2)
      = true := by decide
  intro k v h
  have := List.all_eq_true.mp hall _ (mem_of_lookup_eq_some h)
  simpa using this

set_option maxRecDepth 8000 in
/-- Witness for the amended C6: idempotence at "america" over the
canonical-closed custom table with no fuzzy search. -/
theorem normalize_country_idempotent_witness :
    (normalize_country (normalize_country customLookup (fun _ => none) "america").2
        (fun _ => none)
        (normalize_country customLookup (fun _ => none) "america").1).1
      = (normalize_country customLookup (fun _ => none) "america").1 :=
  normalize_country_idempotent_of_canonical_closed customLookup (fun _ => none)
    customLookup_canonical_closed (fun _ _ _ => rfl)
    (fun _ _ h => Option.noConfusion h) "america"

/-- Witness for the amended C9 at the non-lowercase key `"IELTS"`. -/
theorem filter_exam_name_values_lowercase_witness :
    Condition.nestedCond "exam_scores"
      [Condition.fieldMatch "name" (MatchVal.s (lowerStr "IELTS")),
       Condition.fieldRange "score" { gt := some 7 }] [] []
      ∈ mustNotConds { language_score_requirements := [("IELTS", 7)] }
    ∧ lowerStr (lowerStr "IELTS") = lowerStr "IELTS" :=
  filter_exam_name_values_lowercase
    { language_score_requirements := [("IELTS", 7)] } "IELTS" 7
    (List.mem_singleton.mpr rfl)

end ScholarX
